import Mathlib

/-!
Verification of the qmd-search-obsidian plugin (`src/main.ts`) against its
natural-language specification.  The TypeScript source is shallowly embedded:
strings become `List Char`, the per-session mutable fields of `QmdSearchModal`
become a state record, and the event handlers become a step function on that
state.  The host runtime's `JSON.parse` is kept abstract where possible and
modelled concretely (`jsonParse`) where a concrete parse result is needed.
-/

namespace QmdSearch

/-! ## Character helpers

`isWsChar` is the ASCII fragment of the JavaScript `\s` class / `trim`
whitespace (space, tab, line feed, vertical tab, form feed, carriage return);
the source only ever meets ASCII whitespace in the places these are used. -/

def isWsChar (c : Char) : Bool :=
  c = ' ' || c = '\t' || c = '\n' || c = Char.ofNat 11 || c = Char.ofNat 12 || c = '\r'

/-- JavaScript `String.prototype.trim`. -/
def trimChars (s : List Char) : List Char :=
  ((s.dropWhile isWsChar).reverse.dropWhile isWsChar).reverse

/-- JavaScript `code.toString(16).padStart(4, "0")`:
lowercase hex digits of `n`, left-padded with `'0'` to width 4. -/
def hexPad4 (n : Nat) : List Char :=
  let ds := Nat.toDigits 16 n
  List.replicate (4 - ds.length) '0' ++ ds

/-- The `switch` in `sanitizeJson` (src/main.ts:472-478): the replacement
emitted for a control character (`code < 0x20`) found inside a JSON string. -/
def escapeCtrl (c : Char) : List Char :=
  if c = '\n' then ['\\', 'n']
  else if c = '\r' then ['\\', 'r']
  else if c = '\t' then ['\\', 't']
  else '\\' :: 'u' :: hexPad4 c.toNat

/-! ## sanitizeJson (src/main.ts:451-494)

The source scans the raw text with an index `i` and a boolean `inString`,
appending to `out`.  The scan is embedded as structural recursion on the
remaining characters with the `inString` flag as an explicit argument; the
backslash case consumes the following character exactly as the source's
`i++; out.push(raw[i])` does. -/

def sanitizeAux : List Char → Bool → List Char
  | [], _ => []
  | c :: rest, true =>
    if c = '\\' then
      match rest with
      | [] => [c]
      | d :: rest2 => c :: d :: sanitizeAux rest2 true
    else if c = '"' then
      c :: sanitizeAux rest false
    else if c.toNat < 0x20 then
      escapeCtrl c ++ sanitizeAux rest true
    else
      c :: sanitizeAux rest true
  | c :: rest, false =>
    if c = '"' then c :: sanitizeAux rest true
    else c :: sanitizeAux rest false

def sanitizeJson (raw : List Char) : List Char := sanitizeAux raw false

/-! ## Claim C3: the sanitizer as the spec words it

The claim describes a scan with three kinds of positions: outside a quoted
string, inside one, and immediately after a backslash (where the character is
"copied verbatim without inspection").  `sanitizeSpecScan` is written from
those words as a three-state machine, to be compared with the lookahead-style
`sanitizeAux` taken from the source. -/

inductive ScanMode where
  | outside
  | inside
  | afterBackslash
deriving Repr, DecidableEq

def sanitizeSpecScan : List Char → ScanMode → List Char
  | [], _ => []
  | c :: rest, .outside =>
    -- outside a string every character is copied unchanged
    c :: sanitizeSpecScan rest (if c = '"' then .inside else .outside)
  | c :: rest, .afterBackslash =>
    -- the character immediately following a backslash is copied verbatim
    c :: sanitizeSpecScan rest .inside
  | c :: rest, .inside =>
    if c = '\\' then c :: sanitizeSpecScan rest .afterBackslash
    else if c = '"' then c :: sanitizeSpecScan rest .outside
    else if c.toNat < 0x20 then escapeCtrl c ++ sanitizeSpecScan rest .inside
    else c :: sanitizeSpecScan rest .inside

/-! ## Claim C10: inputs the sanitizer leaves unchanged

`noRawCtrlInStrings s b` scans `s` exactly as the sanitizer does (starting
with `inString = b`) and reports whether any raw control character occurs at
a position lying inside a quoted string region (the position after a
backslash inside a string is still inside the string region). -/

def noRawCtrlInStrings : List Char → Bool → Bool
  | [], _ => true
  | c :: rest, true =>
    if c = '\\' then
      match rest with
      | [] => true
      | d :: rest2 => decide (¬ d.toNat < 0x20) && noRawCtrlInStrings rest2 true
    else if c = '"' then noRawCtrlInStrings rest false
    else if c.toNat < 0x20 then false
    else noRawCtrlInStrings rest true
  | c :: rest, false =>
    if c = '"' then noRawCtrlInStrings rest true
    else noRawCtrlInStrings rest false

/-! ## JSON values

Structural JSON values, as produced by the host runtime's `JSON.parse`.
Numbers keep their source lexeme (the plugin never computes with them beyond
display, and no claim compares numeric values across distinct lexemes). -/

inductive Json where
  | null
  | bool (b : Bool)
  | num (lexeme : List Char)
  | str (s : List Char)
  | arr (items : List Json)
  | obj (fields : List (List Char × Json))

/-- `Array.isArray(parsed) ? parsed : []` (src/main.ts:261). -/
def Json.asArr : Json → List Json
  | .arr l => l
  | _ => []

def Json.isArr : Json → Bool
  | .arr _ => true
  | _ => false

/-! ## The parse block of the close handler (src/main.ts:244-277) -/

/-- JavaScript `String.prototype.indexOf` for a single character, as an
`Option` (`none` for `-1`). -/
def firstIndexOf (l : List Char) (c : Char) : Option Nat :=
  match l with
  | [] => none
  | x :: t => if x = c then some 0 else (firstIndexOf t c).map (· + 1)

/-- JavaScript `String.prototype.lastIndexOf` for a single character. -/
def lastIndexOf (l : List Char) (c : Char) : Option Nat :=
  (firstIndexOf l.reverse c).map (fun i => l.length - 1 - i)

/-- `stdout.slice(jsonStart, jsonEnd + 1)` guarded by the two `indexOf`
checks of src/main.ts:246-254: the substring from the first `[` to the last
`]` inclusive, or `none` when either bracket is absent. -/
def extractArray (stdout : List Char) : Option (List Char) :=
  match firstIndexOf stdout '[', lastIndexOf stdout ']' with
  | some i, some j => some ((stdout.take (j + 1)).drop i)
  | _, _ => none

/-- Outcome of the `try` block of the close handler:
`noArray` is the early `showStatus("empty")` return at src/main.ts:252 (the
session's `results`, cleared when the search started, stay untouched);
`parsed items` is the path that assigns `this.results = items`;
`failure` is the `catch` branch. -/
inductive ParseOutcome where
  | noArray
  | parsed (items : List Json)
  | failure

/-- The parse block, abstracted over the host `JSON.parse` (`parse c = none`
models a thrown exception). -/
def parseStdout (parse : List Char → Option Json) (stdout : List Char) :
    ParseOutcome :=
  match extractArray stdout with
  | none => .noArray
  | some jsonStr =>
    match parse (sanitizeJson jsonStr) with
    | none => .failure
    | some v => .parsed v.asArr

/-! ## Claim C4: rendering JSON with and without correct control escapes

`renderJ false v` prints `v` the way the external tool does in the failure
mode the spec describes: quotes and backslashes inside strings are escaped,
but control characters are left as raw characters — "valid except for
literal control characters occurring inside string values".
`renderJ true v` is the manually-escaped equivalent: the same text with each
such control character replaced by its correct JSON escape. -/

def lbrace : Char := Char.ofNat 0x7b

def rbrace : Char := Char.ofNat 0x7d

def renderStrBody (esc : Bool) (s : List Char) : List Char :=
  (s.map (fun c =>
    if c = '"' then ['\\', '"']
    else if c = '\\' then ['\\', '\\']
    else if esc && c.toNat < 0x20 then escapeCtrl c
    else [c])).flatten

mutual

def renderJ (esc : Bool) : Json → List Char
  | .null => "null".toList
  | .bool true => "true".toList
  | .bool false => "false".toList
  | .num lex => lex
  | .str s => '"' :: renderStrBody esc s ++ ['"']
  | .arr items => '[' :: renderElems esc items ++ [']']
  | .obj fs => lbrace :: renderFieldsJ esc fs ++ [rbrace]

def renderElems (esc : Bool) : List Json → List Char
  | [] => []
  | [v] => renderJ esc v
  | v :: w :: rest => renderJ esc v ++ ',' :: renderElems esc (w :: rest)

def renderFieldsJ (esc : Bool) : List (List Char × Json) → List Char
  | [] => []
  | [(k, v)] => '"' :: renderStrBody esc k ++ '"' :: ':' :: renderJ esc v
  | (k, v) :: f :: rest =>
    ('"' :: renderStrBody esc k ++ '"' :: ':' :: renderJ esc v)
      ++ ',' :: renderFieldsJ esc (f :: rest)

end

/-- A character the sanitizer's in-string scan copies through unchanged and
without a state change: not a quote, not a backslash, not a control. -/
def plainChar (c : Char) : Bool :=
  decide (¬ c = '"' ∧ ¬ c = '\\' ∧ ¬ c.toNat < 32)

/-- Characters that may appear in a rendered number lexeme.  They keep the
scan of `sanitizeJson` outside a string (none of them is `"`). -/
def numLexChar (c : Char) : Bool :=
  c.isDigit || c = '-' || c = '+' || c = '.' || c = 'e' || c = 'E'

mutual

def jsonWf : Json → Bool
  | .null => true
  | .bool _ => true
  | .num lex => !lex.isEmpty && lex.all numLexChar
  | .str _ => true
  | .arr items => jsonWfList items
  | .obj fs => jsonWfFields fs

def jsonWfList : List Json → Bool
  | [] => true
  | v :: rest => jsonWf v && jsonWfList rest

def jsonWfFields : List (List Char × Json) → Bool
  | [] => true
  | (_, v) :: rest => jsonWf v && jsonWfFields rest

end

/-! ## A concrete model of the host runtime's `JSON.parse`

Modelled from the spec: the routine that src/main.ts:260 delegates to is the
host JavaScript engine's `JSON.parse`, which is not part of this repository;
§4.2 step 4 of the spec says the sanitized substring is "parsed as JSON".
The recursive-descent parser below implements standard JSON (RFC 8259)
syntax: `none` models a thrown `SyntaxError`.  In particular a *raw* control
character inside a string literal is a syntax error, exactly the failure the
sanitizer exists to repair.  One knowing deviation on inputs no claim
touches: number lexemes with leading zeros are accepted. -/

def jsonWsChar (c : Char) : Bool :=
  c = ' ' || c = '\t' || c = '\n' || c = '\r'

def skipWs (s : List Char) : List Char := s.dropWhile jsonWsChar

def hexDigitVal (c : Char) : Option Nat :=
  if '0' ≤ c ∧ c ≤ '9' then some (c.toNat - 48)
  else if 'a' ≤ c ∧ c ≤ 'f' then some (c.toNat - 87)
  else if 'A' ≤ c ∧ c ≤ 'F' then some (c.toNat - 55)
  else none

/-- Body of a JSON string literal, after its opening quote: decoded
characters plus the text following the closing quote. -/
def jpStringBody : List Char → List Char → Option (List Char × List Char)
  | [], _ => none
  | '"' :: r, acc => some (acc.reverse, r)
  | '\\' :: e :: r, acc =>
    if e = '"' ∨ e = '\\' ∨ e = '/' then jpStringBody r (e :: acc)
    else if e = 'n' then jpStringBody r ('\n' :: acc)
    else if e = 'r' then jpStringBody r ('\r' :: acc)
    else if e = 't' then jpStringBody r ('\t' :: acc)
    else if e = 'b' then jpStringBody r (Char.ofNat 8 :: acc)
    else if e = 'f' then jpStringBody r (Char.ofNat 12 :: acc)
    else if e = 'u' then
      match r with
      | h1 :: h2 :: h3 :: h4 :: r2 =>
        match hexDigitVal h1, hexDigitVal h2, hexDigitVal h3, hexDigitVal h4 with
        | some a, some b, some c, some d =>
          jpStringBody r2 (Char.ofNat (a * 4096 + b * 256 + c * 16 + d) :: acc)
        | _, _, _, _ => none
      | _ => none
    else none
  | c :: r, acc => if c.toNat < 0x20 then none else jpStringBody r (c :: acc)

/-- A JSON number token, kept as its lexeme. -/
def jpNumber (s : List Char) : Option (Json × List Char) :=
  let p := match s with
    | '-' :: r => (['-'], r)
    | _ => (([] : List Char), s)
  let intPart := p.2.takeWhile Char.isDigit
  if intPart.isEmpty then none
  else
    let s2 := p.2.drop intPart.length
    let pf : List Char × List Char := match s2 with
      | '.' :: r =>
        let d := r.takeWhile Char.isDigit
        if d.isEmpty then ([], s2) else ('.' :: d, r.drop d.length)
      | _ => ([], s2)
    let pe : List Char × List Char := match pf.2 with
      | e :: r =>
        if e = 'e' ∨ e = 'E' then
          let ps : List Char × List Char := match r with
            | '+' :: r2 => (['+'], r2)
            | '-' :: r2 => (['-'], r2)
            | _ => ([], r)
          let d := ps.2.takeWhile Char.isDigit
          if d.isEmpty then ([], pf.2) else (e :: ps.1 ++ d, ps.2.drop d.length)
        else ([], pf.2)
      | _ => ([], pf.2)
    some (.num (p.1 ++ intPart ++ pf.1 ++ pe.1), pe.2)

/-- Consume the exact keyword `w` from the front of `s`. -/
def dropKeyword (w s : List Char) : Option (List Char) :=
  match w, s with
  | [], r => some r
  | c :: ws, d :: r => if d = c then dropKeyword ws r else none
  | _ :: _, [] => none

mutual

def jpValue : Nat → List Char → Option (Json × List Char)
  | 0, _ => none
  | f + 1, s =>
    match skipWs s with
    | '"' :: r => (jpStringBody r []).map (fun q => (.str q.1, q.2))
    | '[' :: r =>
      match skipWs r with
      | ']' :: r2 => some (.arr [], r2)
      | r2 => (jpElems f r2).map (fun q => (.arr q.1, q.2))
    | c :: r =>
      if c = lbrace then
        match skipWs r with
        | d :: r2 =>
          if d = rbrace then some (.obj [], r2)
          else (jpMembers f (d :: r2)).map (fun q => (.obj q.1, q.2))
        | [] => none
      else if c = 'n' then
        (dropKeyword ['u', 'l', 'l'] r).map (fun r2 => (.null, r2))
      else if c = 't' then
        (dropKeyword ['r', 'u', 'e'] r).map (fun r2 => (.bool true, r2))
      else if c = 'f' then
        (dropKeyword ['a', 'l', 's', 'e'] r).map (fun r2 => (.bool false, r2))
      else jpNumber (c :: r)
    | [] => none

def jpElems : Nat → List Char → Option (List Json × List Char)
  | 0, _ => none
  | f + 1, s =>
    match jpValue f s with
    | none => none
    | some (v, r) =>
      match skipWs r with
      | ',' :: r2 => (jpElems f r2).map (fun q => (v :: q.1, q.2))
      | ']' :: r2 => some ([v], r2)
      | _ => none

def jpMembers : Nat → List Char → Option (List (List Char × Json) × List Char)
  | 0, _ => none
  | f + 1, s =>
    match skipWs s with
    | '"' :: r =>
      match jpStringBody r [] with
      | none => none
      | some (k, r1) =>
        match skipWs r1 with
        | ':' :: r2 =>
          match jpValue f r2 with
          | none => none
          | some (v, r3) =>
            match skipWs r3 with
            | ',' :: r4 => (jpMembers f r4).map (fun q => ((k, v) :: q.1, q.2))
            | d :: r4 => if d = rbrace then some ([(k, v)], r4) else none
            | [] => none
        | _ => none
    | _ => none

end

def jsonParse (s : List Char) : Option Json :=
  match jpValue (s.length + 1) s with
  | some (v, r) => if (skipWs r).isEmpty then some v else none
  | none => none

/-! ## The result reconciler (src/main.ts:391-442)

A vault file is an entry of the local file collection, with the fields of
Obsidian's `TFile` that the source reads: `path` and `basename`. -/

structure VaultFile where
  basename : List Char
  path : List Char
deriving Repr, DecidableEq

/-- `normalizeForMatch` (src/main.ts:421-423): lowercase, then collapse any
run of whitespace (`\s+`) to a single hyphen.  `Char.toLower` is the ASCII
fragment of JavaScript `toLowerCase`; only ASCII case matters here.
The regex replacement `replace(/\s+/g, "-")` is a single left-to-right pass
emitting one hyphen per maximal whitespace run; `collapseWsAux` performs
that pass, with the flag recording whether the previous character belonged
to the current run. -/
def collapseWsAux : List Char → Bool → List Char
  | [], _ => []
  | c :: t, inRun =>
    if isWsChar c then
      if inRun then collapseWsAux t true else '-' :: collapseWsAux t true
    else c :: collapseWsAux t false

def collapseWsToHyphen (s : List Char) : List Char := collapseWsAux s false

def normalizeForMatch (s : List Char) : List Char :=
  collapseWsToHyphen (s.map Char.toLower)

/-- JavaScript `replace(/\.md$/, "")`. -/
def stripMdSuffix (s : List Char) : List Char :=
  if ['.', 'm', 'd'].isSuffixOf s then s.take (s.length - 3) else s

/-- JavaScript `s.split("/").pop()` (with `|| ""`): the text after the last
slash, possibly empty. -/
def lastSegment (s : List Char) : List Char :=
  (s.reverse.takeWhile (· ≠ '/')).reverse

/-- `cleanFilePath` (src/main.ts:425-435): strip a `qmd://collection/` or
`collection/` front marker if present. -/
def cleanFilePath (collection rawPath : List Char) : List Char :=
  let qmdPref := "qmd://".toList ++ collection ++ ['/']
  if qmdPref.isPrefixOf rawPath then rawPath.drop qmdPref.length
  else
    let colPref := collection ++ ['/']
    if colPref.isPrefixOf rawPath then rawPath.drop colPref.length
    else rawPath

/-- `resolveVaultFile` (src/main.ts:391-417).  The two `for` loops with
early `return` become `List.find?`; the result is the matched entry's
`path`. -/
def resolveVaultFile (collection : List Char) (files : List VaultFile)
    (qmdPath : List Char) : Option (List Char) :=
  let cleanPath := cleanFilePath collection qmdPath
  let qmdFilename := normalizeForMatch (stripMdSuffix (lastSegment cleanPath))
  if qmdFilename.isEmpty then none
  else
    match files.find? (fun file => normalizeForMatch file.basename == qmdFilename) with
    | some file => some file.path
    | none =>
      let qmdFullNorm := normalizeForMatch (stripMdSuffix cleanPath)
      match files.find? (fun file =>
          normalizeForMatch (stripMdSuffix file.path) == qmdFullNorm) with
      | some file => some file.path
      | none => none

/-- Claim C6 as worded: strip the collection marker and the trailing `.md`
from the raw reference, normalize the bare base name, return the first entry
matching by normalized base name, else the first entry matching by
normalized full path (minus `.md`), else null.  (The claim states no guard
for an empty bare base name.) -/
def resolveSpecC6 (collection : List Char) (files : List VaultFile)
    (ref : List Char) : Option (List Char) :=
  let cleaned := cleanFilePath collection ref
  let bare := normalizeForMatch (stripMdSuffix (lastSegment cleaned))
  let byBase := files.find? (fun f => normalizeForMatch f.basename == bare)
  let byFull := files.find? (fun f =>
    normalizeForMatch (stripMdSuffix f.path)
      == normalizeForMatch (stripMdSuffix cleaned))
  (byBase.orElse (fun _ => byFull)).map (·.path)

/-! ## The search session (the mutable state of `QmdSearchModal` and its
event handlers, src/main.ts:86-389)

The modal runs on a single-threaded event loop: user input events and child
process events are handled one at a time.  `SessState` holds the fields the
handlers read and write; `stepE` is the handler dispatch.  AbortControllers
are numbered by generation: `runSearch` aborts the previous controller and
installs a fresh one (src/main.ts:173-174), so the controller current after
the n-th search is generation n.  `curAborted` records whether the *current*
controller has been aborted, which only `onClose` (src/main.ts:163-166) and
the host's modal-close paths do — superseding a search replaces the aborted
controller by a fresh, unaborted one.  The guard at the top of the `close`
and `error` handlers reads `this.abortController` — the field's value at
event-delivery time, i.e. the current controller — which is exactly
`curAborted` here, regardless of which invocation the event belongs to. -/

inductive Status where
  | hidden
  | searching
  | empty
  | error (msg : List Char)
deriving Repr, DecidableEq

structure SessState where
  /-- `this.results` -/
  results : List Json
  /-- `this.selectedIndex` -/
  selectedIndex : Int
  /-- the status region driven by `showStatus` (`hidden` is `display:none`) -/
  status : Status
  /-- number of result rows currently rendered in `resultsEl` -/
  rows : Nat
  /-- generation of the current `this.abortController` (0 = none yet) -/
  curGen : Nat
  /-- whether the current controller's signal is aborted -/
  curAborted : Bool
  /-- spawned child processes whose `close` event has not yet fired -/
  pending : List Nat

def initState : SessState :=
  { results := [], selectedIndex := -1, status := .hidden, rows := 0,
    curGen := 0, curAborted := false, pending := [] }

/-- `moveSelection` (src/main.ts:347-360), as the pure transition on
`(results, selectedIndex)`. -/
def moveSelection (delta : Int) (results : List Json) (sel : Int) : Int :=
  if results.length = 0 then sel
  else if sel < 0 then (if delta > 0 then 0 else (results.length : Int) - 1)
  else
    let s1 := sel + delta
    let s2 := if s1 < 0 then (results.length : Int) - 1 else s1
    if s2 ≥ (results.length : Int) then 0 else s2

/-- `stderr.trim() || "QMD exited with code " + code` (src/main.ts:236). -/
def exitErrMsg (code : Int) (stderr : List Char) : List Char :=
  let t := trimChars stderr
  if t.isEmpty then "QMD exited with code ".toList ++ (toString code).toList
  else t

/-- The `catch` branch's message (src/main.ts:275-276), in its
debug-logging-off form; the flag only switches the trailing hint text. -/
def parseFailMsg : List Char :=
  "Failed to parse QMD output. Enable debug logging in settings for details.".toList

/-- Effect of the parse block (src/main.ts:244-277) on the session state. -/
def applyParse (parse : List Char → Option Json) (stdout : List Char)
    (s : SessState) : SessState :=
  match parseStdout parse stdout with
  | .noArray => { s with status := .empty }
  | .failure => { s with status := .error parseFailMsg }
  | .parsed items =>
    if items.isEmpty then { s with results := items, status := .empty }
    else { s with results := items, status := .hidden, rows := items.length }

/-- The `close` handler (src/main.ts:225-278): the aborted guard, then the
exit-code check `code !== 0 && code !== null`, then the parse block. -/
def applyClose (parse : List Char → Option Json) (code : Option Int)
    (stdout stderr : List Char) (s : SessState) : SessState :=
  if s.curAborted then s
  else
    match code with
    | some c =>
      if c = 0 then applyParse parse stdout s
      else { s with status := .error (exitErrMsg c stderr) }
    | none => applyParse parse stdout s

/-- The discrete events a session processes.  `closeEvt gen code stdout
stderr` is the `close` event of the child spawned by the `gen`-th search,
carrying its exit code (`none` = null, process killed) and its accumulated
stdout/stderr; the environment (external tool, OS scheduling) chooses the
payloads and the delivery order. -/
inductive Event where
  | submit (query : List Char)
  | closeEvt (gen : Nat) (code : Option Int) (stdout stderr : List Char)
  | errEvt (gen : Nat) (msg : List Char)
  | arrowMove (delta : Int)
  | hover (i : Nat)
  | focusInput
  | inputEdit
  | escapeKey
  | closeModal

def stepE (parse : List Char → Option Json) (s : SessState) : Event → SessState
  | .submit query =>
    -- keydown Enter → runSearch(input.trim()) (src/main.ts:142, 170-283)
    let q := trimChars query
    if q.isEmpty then s
    else
      { results := [], selectedIndex := -1, status := .searching, rows := 0,
        curGen := s.curGen + 1, curAborted := false,
        pending := (s.curGen + 1) :: s.pending }
  | .closeEvt gen code stdout stderr =>
    applyClose parse code stdout stderr { s with pending := s.pending.erase gen }
  | .errEvt _ msg =>
    -- the spawn `error` handler (src/main.ts:217-223)
    if s.curAborted then s else { s with status := .error msg }
  | .arrowMove delta =>
    { s with selectedIndex := moveSelection delta s.results s.selectedIndex }
  | .hover i =>
    -- row mouseenter (src/main.ts:338-341)
    { s with selectedIndex := (i : Int) }
  | .focusInput => { s with selectedIndex := -1 }
  | .inputEdit => { s with selectedIndex := -1 }
  | .escapeKey =>
    -- src/main.ts:150-157; with no selection the host closes the modal
    if s.selectedIndex ≥ 0 then { s with selectedIndex := -1 }
    else { s with curAborted := true, rows := 0 }
  | .closeModal => { s with curAborted := true, rows := 0 }

/-- Which events can actually occur in a state: user events need the modal
open; `Enter` reaches `runSearch` only without an active selection
(src/main.ts:137-143); a mouseenter needs a rendered row; child events need
the child to have been spawned and not yet closed. -/
def validEvent (s : SessState) : Event → Bool
  | .submit _ => !s.curAborted && (decide (s.selectedIndex < 0) || s.results.isEmpty)
  | .closeEvt gen _ _ _ => s.pending.contains gen
  | .errEvt gen _ => s.pending.contains gen
  | .arrowMove _ => !s.curAborted
  | .hover i => !s.curAborted && decide (i < s.rows)
  | .focusInput => !s.curAborted
  | .inputEdit => !s.curAborted
  | .escapeKey => !s.curAborted
  | .closeModal => !s.curAborted

def runTrace (parse : List Char → Option Json) (s : SessState)
    (events : List Event) : SessState :=
  events.foldl (stepE parse) s

def validTrace (parse : List Char → Option Json) (s : SessState) :
    List Event → Bool
  | [] => true
  | e :: rest => validEvent s e && validTrace parse (stepE parse s e) rest

/-- The invariant claimed for `selectedIndex` (spec §3). -/
def selIdxInv (s : SessState) : Prop :=
  s.selectedIndex = -1 ∨
    (0 ≤ s.selectedIndex ∧ s.selectedIndex < (s.results.length : Int))

/-! # Theorems -/

/-! ## Step lemmas for the sanitizer scan -/

theorem sanAux_nil (b : Bool) : sanitizeAux [] b = [] := by
  rw [sanitizeAux.eq_def]

theorem sanAux_backslash_nil : sanitizeAux ['\\'] true = ['\\'] := by
  rw [sanitizeAux.eq_def]; simp

theorem sanAux_backslash (d : Char) (rest2 : List Char) :
    sanitizeAux ('\\' :: d :: rest2) true = '\\' :: d :: sanitizeAux rest2 true := by
  rw [sanitizeAux.eq_def]; simp

theorem sanAux_quote_inside (rest : List Char) :
    sanitizeAux ('"' :: rest) true = '"' :: sanitizeAux rest false := by
  rw [sanitizeAux.eq_def]; simp

theorem sanAux_ctrl (c : Char) (h1 : ¬c = '\\') (h2 : ¬c = '"')
    (h3 : c.toNat < 32) (rest : List Char) :
    sanitizeAux (c :: rest) true = escapeCtrl c ++ sanitizeAux rest true := by
  rw [sanitizeAux.eq_def]; simp [h1, h2, h3]

theorem sanAux_plain_inside (c : Char) (h1 : ¬c = '\\') (h2 : ¬c = '"')
    (h3 : ¬c.toNat < 32) (rest : List Char) :
    sanitizeAux (c :: rest) true = c :: sanitizeAux rest true := by
  rw [sanitizeAux.eq_def]; simp [h1, h2, h3]

theorem sanAux_quote_outside (rest : List Char) :
    sanitizeAux ('"' :: rest) false = '"' :: sanitizeAux rest true := by
  rw [sanitizeAux.eq_def]; simp

theorem sanAux_outside (c : Char) (h : ¬c = '"') (rest : List Char) :
    sanitizeAux (c :: rest) false = c :: sanitizeAux rest false := by
  rw [sanitizeAux.eq_def]; simp [h]

/-! ## Claim C3 -/

theorem sanAux_eq_specScan (s : List Char) (b : Bool) :
    sanitizeAux s b = sanitizeSpecScan s (if b then .inside else .outside) := by
  induction s, b using sanitizeAux.induct with
  | case1 b => cases b <;> rfl
  | case2 => rw [sanAux_backslash_nil]; rfl
  | case3 d rest2 ih =>
    rw [sanAux_backslash]
    simp only [sanitizeSpecScan, if_pos rfl, ite_true] at *
    simp [ih]
  | case4 rest h ih =>
    rw [sanAux_quote_inside]
    simp only [ite_true, ite_false] at ih
    simp [sanitizeSpecScan, h, ih]
  | case5 c rest h1 h2 h3 ih =>
    rw [sanAux_ctrl c h1 h2 h3]
    simp only [ite_true] at ih
    simp [sanitizeSpecScan, h1, h2, h3, ih]
  | case6 c rest h1 h2 h3 ih =>
    rw [sanAux_plain_inside c h1 h2 h3]
    simp only [ite_true] at ih
    simp [sanitizeSpecScan, h1, h2, h3, ih]
  | case7 rest ih =>
    rw [sanAux_quote_outside]
    simp only [ite_true, ite_false] at ih
    simp [sanitizeSpecScan, ih]
  | case8 c rest h ih =>
    rw [sanAux_outside c h]
    simp only [ite_false] at ih
    simp [sanitizeSpecScan, h, ih]

/-- C3: `sanitizeJson` scans its input character by character tracking
whether the position is inside a quoted JSON string; inside a string a raw
newline becomes `\n`, a raw carriage return `\r`, a raw tab `\t`, every
other character below 0x20 a 4-hex-digit `\u` escape, the character
immediately following a backslash is copied verbatim without inspection,
and all other characters are copied unchanged; outside a string every
character is copied unchanged.  Stated as: the source's scan agrees with
`sanitizeSpecScan`, the three-state machine written from those words. -/
theorem c3_sanitizer_matches_spec_scan (raw : List Char) :
    sanitizeJson raw = sanitizeSpecScan raw .outside := by
  simpa using sanAux_eq_specScan raw false

/-! ## Claim C10 -/

theorem hexPad4_plain : ∀ n < 32, (hexPad4 n).all plainChar = true := by decide

theorem sanAux_plain_append (a : List Char) (X : List Char)
    (h : a.all plainChar = true) :
    sanitizeAux (a ++ X) true = a ++ sanitizeAux X true := by
  induction a with
  | nil => simp
  | cons c a ih =>
    simp only [List.all_cons, Bool.and_eq_true] at h
    have hp := of_decide_eq_true h.1
    rw [List.cons_append, sanAux_plain_inside c hp.2.1 hp.1 hp.2.2, ih h.2,
      List.cons_append]

theorem escapeCtrl_unmoved (c : Char) (h : c.toNat < 32) (X : List Char) :
    sanitizeAux (escapeCtrl c ++ X) true = escapeCtrl c ++ sanitizeAux X true := by
  unfold escapeCtrl
  by_cases h1 : c = '\n'
  · simp [h1, sanAux_backslash]
  · by_cases h2 : c = '\r'
    · simp [h1, h2, sanAux_backslash]
    · by_cases h3 : c = '\t'
      · simp [h1, h2, h3, sanAux_backslash]
      · simp only [h1, h2, h3, if_false]
        rw [List.cons_append, List.cons_append, sanAux_backslash,
          sanAux_plain_append _ _ (hexPad4_plain c.toNat h), List.cons_append,
          List.cons_append]

theorem sanAux_idem (s : List Char) (b : Bool) :
    sanitizeAux (sanitizeAux s b) b = sanitizeAux s b := by
  induction s, b using sanitizeAux.induct with
  | case1 b => simp [sanAux_nil]
  | case2 => rw [sanAux_backslash_nil, sanAux_backslash_nil]
  | case3 d rest2 ih => rw [sanAux_backslash, sanAux_backslash, ih]
  | case4 rest h ih => rw [sanAux_quote_inside, sanAux_quote_inside, ih]
  | case5 c rest h1 h2 h3 ih =>
    rw [sanAux_ctrl c h1 h2 h3, escapeCtrl_unmoved c h3, ih]
  | case6 c rest h1 h2 h3 ih =>
    rw [sanAux_plain_inside c h1 h2 h3, sanAux_plain_inside c h1 h2 h3, ih]
  | case7 rest ih => rw [sanAux_quote_outside, sanAux_quote_outside, ih]
  | case8 c rest h ih => rw [sanAux_outside c h, sanAux_outside c h, ih]

theorem sanAux_id_of_noCtrl (s : List Char) (b : Bool)
    (h : noRawCtrlInStrings s b = true) : sanitizeAux s b = s := by
  induction s, b using sanitizeAux.induct with
  | case1 b => exact sanAux_nil b
  | case2 => exact sanAux_backslash_nil
  | case3 d rest2 ih =>
    rw [noRawCtrlInStrings.eq_def] at h
    simp at h
    rw [sanAux_backslash, ih h.2]
  | case4 rest h0 ih =>
    rw [noRawCtrlInStrings.eq_def] at h
    simp at h
    rw [sanAux_quote_inside, ih h]
  | case5 c rest h1 h2 h3 ih =>
    rw [noRawCtrlInStrings.eq_def] at h
    simp [h1, h2, h3] at h
  | case6 c rest h1 h2 h3 ih =>
    rw [noRawCtrlInStrings.eq_def] at h
    simp [h1, h2, h3] at h
    rw [sanAux_plain_inside c h1 h2 h3, ih h]
  | case7 rest ih =>
    rw [noRawCtrlInStrings.eq_def] at h
    simp at h
    rw [sanAux_quote_outside, ih h]
  | case8 c rest h0 ih =>
    rw [noRawCtrlInStrings.eq_def] at h
    simp [h0] at h
    rw [sanAux_outside c h0, ih h]

/-- C10: an input with no raw control character inside its quoted string
regions is returned unchanged by the sanitizer, and the sanitizer is
idempotent on every input. -/
theorem c10_sanitizer_identity_and_idempotent (s : List Char) :
    (noRawCtrlInStrings s false = true → sanitizeJson s = s)
    ∧ sanitizeJson (sanitizeJson s) = sanitizeJson s :=
  ⟨fun h => sanAux_id_of_noCtrl s false h, sanAux_idem s false⟩

/-- Witness for C10 at the concrete input `"ab"` (a quoted string with no
control characters). -/
theorem c10_witness :
    noRawCtrlInStrings ('"' :: 'a' :: 'b' :: ['"']) false = true
    ∧ sanitizeJson ('"' :: 'a' :: 'b' :: ['"']) = '"' :: 'a' :: 'b' :: ['"'] :=
  ⟨by decide,
    (c10_sanitizer_identity_and_idempotent ('"' :: 'a' :: 'b' :: ['"'])).1
      (by decide)⟩

/-! ## Claim C7 -/

/-- C7: `moveSelection` wraps circularly — with a non-empty result list,
moving backward from index 0 lands on the last index, moving forward from
the last index lands on 0 — and on an empty result list it is a no-op that
leaves `selectedIndex` unchanged (so at -1 when it was -1). -/
theorem c7_moveSelection_circular (results : List Json) (delta sel : Int) :
    (results ≠ [] → moveSelection (-1) results 0 = (results.length : Int) - 1)
    ∧ (results ≠ [] → moveSelection 1 results ((results.length : Int) - 1) = 0)
    ∧ (results = [] → moveSelection delta results sel = sel) := by
  refine ⟨fun h => ?_, fun h => ?_, fun h => ?_⟩
  · have hl : 0 < results.length := List.length_pos.mpr h
    unfold moveSelection
    dsimp only
    split_ifs <;> omega
  · have hl : 0 < results.length := List.length_pos.mpr h
    unfold moveSelection
    dsimp only
    split_ifs <;> omega
  · subst h
    simp [moveSelection]

/-- Witness for C7 on a two-element result list and on the empty list. -/
theorem c7_witness :
    moveSelection (-1) [Json.null, Json.null] 0 = 1
    ∧ moveSelection 1 [Json.null, Json.null] 1 = 0
    ∧ moveSelection 5 ([] : List Json) (-1) = -1 := by
  have h2 : ([Json.null, Json.null] : List Json) ≠ [] := by simp
  refine ⟨?_, ?_, ?_⟩
  · simpa using (c7_moveSelection_circular [Json.null, Json.null] 5 (-1)).1 h2
  · simpa using (c7_moveSelection_circular [Json.null, Json.null] 5 (-1)).2.1 h2
  · exact (c7_moveSelection_circular [] 5 (-1)).2.2 rfl

/-! ## Claim C2 -/

theorem firstIndexOf_eq_none_iff (l : List Char) (c : Char) :
    firstIndexOf l c = none ↔ c ∉ l := by
  induction l with
  | nil => simp [firstIndexOf]
  | cons x t ih =>
    simp only [firstIndexOf]
    by_cases hx : x = c
    · simp [hx]
    · simp only [hx, if_false, Option.map_eq_none', ih, List.mem_cons]
      constructor
      · intro h hc
        rcases hc with rfl | hc
        · exact hx rfl
        · exact h hc
      · intro h hc
        exact h (Or.inr hc)

theorem lastIndexOf_eq_none_iff (l : List Char) (c : Char) :
    lastIndexOf l c = none ↔ c ∉ l := by
  simp [lastIndexOf, Option.map_eq_none', firstIndexOf_eq_none_iff,
    List.mem_reverse]

theorem extractArray_eq_none_of_no_bracket (stdout : List Char)
    (h : '[' ∉ stdout ∨ ']' ∉ stdout) : extractArray stdout = none := by
  unfold extractArray
  rcases h with h | h
  · rw [(firstIndexOf_eq_none_iff stdout '[').mpr h]
  · rw [(lastIndexOf_eq_none_iff stdout ']').mpr h]
    cases firstIndexOf stdout '[' <;> rfl

/-- C2: the parse block fails exactly when parsing the sanitized substring
between the first `[` and the last `]` throws; a missing bracket yields the
empty-results status (results untouched), not an error; a non-array parse
yields zero results (empty-results status), not an error. -/
theorem c2_recovery_parser_outcomes (parse : List Char → Option Json)
    (stdout : List Char) :
    (('[' ∉ stdout ∨ ']' ∉ stdout) →
      parseStdout parse stdout = .noArray
      ∧ ∀ s : SessState, applyParse parse stdout s = { s with status := .empty })
    ∧ (∀ sub, extractArray stdout = some sub →
        (parseStdout parse stdout = .failure ↔ parse (sanitizeJson sub) = none))
    ∧ (∀ sub v, extractArray stdout = some sub →
        parse (sanitizeJson sub) = some v → v.isArr = false →
        parseStdout parse stdout = .parsed []
        ∧ ∀ s : SessState, applyParse parse stdout s
            = { s with results := [], status := .empty }) := by
  refine ⟨fun h => ?_, fun sub hsub => ?_, fun sub v hsub hp hv => ?_⟩
  · have hn : extractArray stdout = none :=
      extractArray_eq_none_of_no_bracket stdout h
    have h1 : parseStdout parse stdout = .noArray := by
      simp [parseStdout, hn]
    exact ⟨h1, fun s => by simp [applyParse, h1]⟩
  · simp only [parseStdout, hsub]
    cases parse (sanitizeJson sub) <;> simp
  · have h1 : parseStdout parse stdout = .parsed [] := by
      simp only [parseStdout, hsub, hp]
      cases v <;> simp_all [Json.isArr, Json.asArr]
    refine ⟨h1, fun s => by simp [applyParse, h1]⟩

/-- Witness for C2: a bracketless output, a throwing parse on `[]`, and a
parse returning the non-array value `null` on `[]`. -/
theorem c2_witness :
    parseStdout (fun _ => none) ['x'] = .noArray
    ∧ parseStdout (fun _ => none) ['[', ']'] = .failure
    ∧ parseStdout (fun _ => some .null) ['[', ']'] = .parsed [] := by
  refine ⟨((c2_recovery_parser_outcomes (fun _ => none) ['x']).1 ?_).1,
    ((c2_recovery_parser_outcomes (fun _ => none) ['[', ']']).2.1
      ['[', ']'] rfl).mpr rfl,
    ((c2_recovery_parser_outcomes (fun _ => some .null) ['[', ']']).2.2
      ['[', ']'] .null rfl rfl rfl).1⟩
  left
  decide

/-! ## Claim C5 -/

/-- Counterexample to C5 as stated: two vault entries both normalize to the
base name `mydoc`, equal to the raw reference's bare base name, and no
normalized full-path match exists — yet the code does not resolve to null:
the first base-name match wins (src/main.ts:401-406 returns inside the first
loop without checking for duplicates). -/
theorem c5_counterexample :
    (List.countP
        (fun f : VaultFile => normalizeForMatch f.basename
          == normalizeForMatch (stripMdSuffix (lastSegment
               (cleanFilePath "obsidian".toList "mydoc".toList))))
        [⟨"MyDoc".toList, "a/MyDoc.md".toList⟩,
         ⟨"MyDoc".toList, "b/MyDoc.md".toList⟩] = 2)
    ∧ (List.all
        [⟨"MyDoc".toList, "a/MyDoc.md".toList⟩,
         ⟨"MyDoc".toList, "b/MyDoc.md".toList⟩]
        (fun f : VaultFile => !(normalizeForMatch (stripMdSuffix f.path)
          == normalizeForMatch (stripMdSuffix
               (cleanFilePath "obsidian".toList "mydoc".toList)))) = true)
    ∧ resolveVaultFile "obsidian".toList
        [⟨"MyDoc".toList, "a/MyDoc.md".toList⟩,
         ⟨"MyDoc".toList, "b/MyDoc.md".toList⟩]
        "mydoc".toList = some "a/MyDoc.md".toList
    ∧ resolveVaultFile "obsidian".toList
        [⟨"MyDoc".toList, "a/MyDoc.md".toList⟩,
         ⟨"MyDoc".toList, "b/MyDoc.md".toList⟩]
        "mydoc".toList ≠ none := by
  decide

/-- C5 amended: among multiple base-name candidates resolution is decided by
collection order — the first base-name match wins, full-path comparison is
consulted only when no base-name candidate exists — and the reconciler
returns null exactly when the bare base name is empty or neither pass finds
a match. -/
theorem c5_amended_first_match_wins (collection : List Char)
    (files : List VaultFile) (ref : List Char) :
    (∀ f, (normalizeForMatch (stripMdSuffix (lastSegment
          (cleanFilePath collection ref)))).isEmpty = false →
      files.find? (fun g => normalizeForMatch g.basename
        == normalizeForMatch (stripMdSuffix (lastSegment
             (cleanFilePath collection ref)))) = some f →
      resolveVaultFile collection files ref = some f.path)
    ∧ (resolveVaultFile collection files ref = none ↔
        (normalizeForMatch (stripMdSuffix (lastSegment
            (cleanFilePath collection ref)))).isEmpty = true
        ∨ (files.find? (fun g => normalizeForMatch g.basename
              == normalizeForMatch (stripMdSuffix (lastSegment
                   (cleanFilePath collection ref)))) = none
           ∧ files.find? (fun g => normalizeForMatch (stripMdSuffix g.path)
              == normalizeForMatch (stripMdSuffix
                   (cleanFilePath collection ref))) = none)) := by
  constructor
  · intro f he hf
    unfold resolveVaultFile
    dsimp only
    rw [he, hf]
    simp
  · unfold resolveVaultFile
    dsimp only
    cases hE : (normalizeForMatch (stripMdSuffix (lastSegment
        (cleanFilePath collection ref)))).isEmpty
    · simp only [Bool.false_eq_true, if_false]
      cases hB : files.find? (fun g => normalizeForMatch g.basename
          == normalizeForMatch (stripMdSuffix (lastSegment
               (cleanFilePath collection ref))))
      · cases hF : files.find? (fun g => normalizeForMatch (stripMdSuffix g.path)
            == normalizeForMatch (stripMdSuffix (cleanFilePath collection ref)))
        · simp [hB, hF]
        · simp [hB, hF]
      · simp [hB]
    · simp [hE]

/-- Witness for C5's amended claim: the duplicate-base-name collection of
the counterexample (first match returned) and the empty collection
(null). -/
theorem c5_amended_witness :
    resolveVaultFile "obsidian".toList
      [⟨"MyDoc".toList, "a/MyDoc.md".toList⟩,
       ⟨"MyDoc".toList, "b/MyDoc.md".toList⟩]
      "mydoc".toList = some "a/MyDoc.md".toList
    ∧ resolveVaultFile "obsidian".toList [] "mydoc".toList = none := by
  refine ⟨(c5_amended_first_match_wins "obsidian".toList
      [⟨"MyDoc".toList, "a/MyDoc.md".toList⟩,
       ⟨"MyDoc".toList, "b/MyDoc.md".toList⟩]
      "mydoc".toList).1
      ⟨"MyDoc".toList, "a/MyDoc.md".toList⟩ (by decide) (by decide), ?_⟩
  exact (c5_amended_first_match_wins "obsidian".toList [] "mydoc".toList).2.mpr
    (Or.inr ⟨rfl, rfl⟩)

/-! ## Claim C6 -/

/-- Counterexample to C6 as stated: for the reference `x/` the bare base
name is empty; the claim's two-pass algorithm (`resolveSpecC6`) matches the
entry whose basename is empty, but the code returns null without attempting
either pass (the `if (!qmdFilename) return null` guard, src/main.ts:397). -/
theorem c6_counterexample :
    resolveVaultFile "obsidian".toList [⟨[], "a".toList⟩] "x/".toList = none
    ∧ resolveSpecC6 "obsidian".toList [⟨[], "a".toList⟩] "x/".toList
        = some "a".toList := by
  decide

/-- C6 amended: the reconciler behaves exactly as the claim describes —
strip the collection marker and trailing `.md`, normalize, first base-name
match, else first full-path match, else null — except that an empty bare
base name short-circuits to null before either pass. -/
theorem c6_amended_reconciler_equals_spec (collection : List Char)
    (files : List VaultFile) (ref : List Char) :
    resolveVaultFile collection files ref =
      if (normalizeForMatch (stripMdSuffix (lastSegment
            (cleanFilePath collection ref)))).isEmpty
      then none
      else resolveSpecC6 collection files ref := by
  unfold resolveVaultFile resolveSpecC6
  dsimp only
  cases hE : (normalizeForMatch (stripMdSuffix (lastSegment
      (cleanFilePath collection ref)))).isEmpty
  · simp only [Bool.false_eq_true, if_false]
    cases hB : files.find? (fun g => normalizeForMatch g.basename
        == normalizeForMatch (stripMdSuffix (lastSegment
             (cleanFilePath collection ref))))
    · cases hF : files.find? (fun g => normalizeForMatch (stripMdSuffix g.path)
          == normalizeForMatch (stripMdSuffix (cleanFilePath collection ref)))
      · simp [hB, hF, Option.orElse]
      · simp [hB, hF, Option.orElse]
    · simp [hB, Option.orElse]
  · simp [hE]

/-! ## Claim C9 -/

/-- Counterexample to C9 as stated: a child that dies with a null exit code
while the session's current controller is *not* aborted (here: killed from
outside the plugin; the superseded-invocation path of C1 reaches the same
state) is not short-circuited — the close handler falls through to the
parse block (src/main.ts:235 only skips the error branch) and, with no
bracket in the partial stdout, displays the empty-results status.  So a
null exit code produced output, contradicting "produces no output at
all". -/
theorem c9_counterexample :
    validTrace jsonParse initState
      [.submit ['a'], .closeEvt 1 none ['x'] []] = true
    ∧ (runTrace jsonParse initState
        [.submit ['a'], .closeEvt 1 none ['x'] []]).status = .empty
    ∧ (runTrace jsonParse initState
        [.submit ['a'], .closeEvt 1 none ['x'] []]).status ≠ .searching := by
  refine ⟨rfl, rfl, ?_⟩
  decide

/-- C9 amended: a non-zero non-null exit code is reported as an error whose
message is the trimmed stderr, or the generic "exited with code N" when
stderr trims to empty; a null exit code is never treated as an exit-code
failure — the close handler handles it exactly like a zero (success) exit
code, so when the current controller is not aborted its stdout still flows
to the parse stage (and when it is aborted, nothing happens). -/
theorem c9_amended_exit_code_handling (parse : List Char → Option Json)
    (s : SessState) (gen : Nat) (stdout stderr : List Char) (c : Int) :
    (s.curAborted = false → c ≠ 0 →
      stepE parse s (.closeEvt gen (some c) stdout stderr)
        = { s with pending := s.pending.erase gen,
                   status := .error (if (trimChars stderr).isEmpty
                     then "QMD exited with code ".toList ++ (toString c).toList
                     else trimChars stderr) })
    ∧ stepE parse s (.closeEvt gen none stdout stderr)
        = stepE parse s (.closeEvt gen (some 0) stdout stderr) := by
  constructor
  · intro ha hc
    simp [stepE, applyClose, ha, hc, exitErrMsg]
  · simp [stepE, applyClose]

/-- Witness for C9's amended claim: a live session whose child exits with
code 2 and stderr `e`. -/
theorem c9_amended_witness :
    stepE jsonParse
      { results := [], selectedIndex := -1, status := .searching, rows := 0,
        curGen := 1, curAborted := false, pending := [1] }
      (.closeEvt 1 (some 2) [] ['e'])
    = { results := [], selectedIndex := -1, status := .error ['e'], rows := 0,
        curGen := 1, curAborted := false, pending := [] } := by
  have h := (c9_amended_exit_code_handling jsonParse
    { results := [], selectedIndex := -1, status := .searching, rows := 0,
      curGen := 1, curAborted := false, pending := [1] }
    1 [] ['e'] 2).1 rfl (by decide)
  exact h

/-! ## Claim C1 -/

/-- C1 is violated by the code.  The guard at the top of the close handler
reads `this.abortController?.signal.aborted` — the controller *current at
event time*, not the one belonging to the invocation.  When search 2
supersedes search 1, `runSearch` aborts controller 1 (killing child 1) but
immediately installs the fresh, unaborted controller 2, so when child 1's
`close` event arrives later it passes the guard and is acted upon.
Trace 1 (error path): child 1 exits with code 1 / stderr `boom` after
search 2 started — the stale error text is displayed while search 2 is
still in flight.  Trace 2 (success path): child 1's stdout `[null]`
(flushed before the kill, or exit raced the kill) populates `results`
while search 2 is still in flight. -/
theorem c1_stale_output_acted_upon :
    (validTrace jsonParse initState
        [.submit ['a'], .submit ['b'],
         .closeEvt 1 (some 1) [] "boom".toList] = true
      ∧ (runTrace jsonParse initState
          [.submit ['a'], .submit ['b'],
           .closeEvt 1 (some 1) [] "boom".toList]).status
          = .error "boom".toList
      ∧ (runTrace jsonParse initState
          [.submit ['a'], .submit ['b'],
           .closeEvt 1 (some 1) [] "boom".toList]).pending = [2])
    ∧ (validTrace jsonParse initState
        [.submit ['a'], .submit ['b'],
         .closeEvt 1 (some 0) "[null]".toList []] = true
      ∧ (runTrace jsonParse initState
          [.submit ['a'], .submit ['b'],
           .closeEvt 1 (some 0) "[null]".toList []]).results = [Json.null]
      ∧ (runTrace jsonParse initState
          [.submit ['a'], .submit ['b'],
           .closeEvt 1 (some 0) "[null]".toList []]).pending = [2]) :=
  ⟨⟨rfl, rfl, rfl⟩, ⟨rfl, rfl, rfl⟩⟩

/-! ## Claim C8 -/

/-- C8 is violated by the code, through the same stale-close slip as C1:
search 1 is superseded by search 2; search 2 returns two results, the user
hovers row 1 (`selectedIndex := 1`); then child 1's late close delivers a
one-element array and the handler replaces `results` *without resetting*
`selectedIndex`, leaving `selectedIndex = 1` with `results.length = 1` —
outside the claimed invariant. -/
theorem c8_selected_index_invariant_violated :
    validTrace jsonParse initState
      [.submit ['a'], .submit ['b'],
       .closeEvt 2 (some 0) "[null,null]".toList [],
       .hover 1,
       .closeEvt 1 (some 0) "[null]".toList []] = true
    ∧ (runTrace jsonParse initState
        [.submit ['a'], .submit ['b'],
         .closeEvt 2 (some 0) "[null,null]".toList [],
         .hover 1,
         .closeEvt 1 (some 0) "[null]".toList []]).selectedIndex = 1
    ∧ (runTrace jsonParse initState
        [.submit ['a'], .submit ['b'],
         .closeEvt 2 (some 0) "[null,null]".toList [],
         .hover 1,
         .closeEvt 1 (some 0) "[null]".toList []]).results.length = 1
    ∧ ¬ selIdxInv (runTrace jsonParse initState
        [.submit ['a'], .submit ['b'],
         .closeEvt 2 (some 0) "[null,null]".toList [],
         .hover 1,
         .closeEvt 1 (some 0) "[null]".toList []]) := by
  refine ⟨rfl, rfl, rfl, ?_⟩
  rw [selIdxInv]
  decide

/-! ## Claim C4 -/

theorem numLexChar_ne_quote (c : Char) (h : numLexChar c = true) :
    (c == '"') = false := by
  cases hc : c == '"'
  · rfl
  · rw [show c = '"' from beq_iff_eq.mp hc] at h
    exact absurd h (by decide)

theorem numLex_all_noquote (lex : List Char) (h : lex.all numLexChar = true) :
    lex.all (fun c => !(c == '"')) = true := by
  induction lex with
  | nil => rfl
  | cons c t ih =>
    simp only [List.all_cons, Bool.and_eq_true] at h ⊢
    exact ⟨by rw [numLexChar_ne_quote c h.1]; rfl, ih h.2⟩

/-- Outside a string the sanitizer copies a quote-free segment through
unchanged and stays outside. -/
theorem sanAux_noquote_append (a X : List Char)
    (h : a.all (fun c => !(c == '"')) = true) :
    sanitizeAux (a ++ X) false = a ++ sanitizeAux X false := by
  induction a with
  | nil => simp
  | cons c t ih =>
    simp only [List.all_cons, Bool.and_eq_true] at h
    have hc : ¬ c = '"' := by
      intro hq
      rw [hq] at h
      exact absurd h.1 (by decide)
    rw [List.cons_append, sanAux_outside c hc, ih h.2, List.cons_append]

theorem renderStrBody_cons (esc : Bool) (c : Char) (s : List Char) :
    renderStrBody esc (c :: s) =
      (if c = '"' then ['\\', '"']
       else if c = '\\' then ['\\', '\\']
       else if esc && c.toNat < 0x20 then escapeCtrl c
       else [c]) ++ renderStrBody esc s := by
  simp [renderStrBody]

/-- The sanitizer turns the raw rendering of a string body into the escaped
rendering, consuming the closing quote back to the outside state. -/
theorem sanAux_renderStrBody (s t : List Char) :
    sanitizeAux (renderStrBody false s ++ ('"' :: t)) true
      = renderStrBody true s ++ ('"' :: sanitizeAux t false) := by
  induction s with
  | nil => simp [renderStrBody, sanAux_quote_inside]
  | cons c s ih =>
    rw [renderStrBody_cons, renderStrBody_cons]
    by_cases h1 : c = '"'
    · rw [if_pos h1, if_pos h1]
      simp only [List.cons_append, List.append_assoc, List.nil_append]
      rw [sanAux_backslash, ih]
    · by_cases h2 : c = '\\'
      · rw [if_neg h1, if_neg h1, if_pos h2, if_pos h2]
        simp only [List.cons_append, List.append_assoc, List.nil_append]
        rw [sanAux_backslash, ih]
      · by_cases h3 : c.toNat < 0x20
        · rw [if_neg h1, if_neg h1, if_neg h2, if_neg h2,
            if_neg (show ¬((false && decide (c.toNat < 0x20)) = true) by simp),
            if_pos (show (true && decide (c.toNat < 0x20)) = true by simp [h3])]
          simp only [List.cons_append, List.append_assoc, List.nil_append]
          rw [sanAux_ctrl c h2 h1 h3, ih]
        · rw [if_neg h1, if_neg h1, if_neg h2, if_neg h2,
            if_neg (show ¬((false && decide (c.toNat < 0x20)) = true) by simp),
            if_neg (show ¬((true && decide (c.toNat < 0x20)) = true) by simp [h3])]
          simp only [List.cons_append, List.append_assoc, List.nil_append]
          rw [sanAux_plain_inside c h2 h1 h3, ih]

mutual

/-- The sanitizer maps the raw rendering of a well-formed JSON value,
followed by any continuation, to the escaped rendering followed by the
sanitized continuation. -/
theorem sanAux_renderJ (v : Json) (h : jsonWf v = true) (t : List Char) :
    sanitizeAux (renderJ false v ++ t) false
      = renderJ true v ++ sanitizeAux t false := by
  cases v with
  | null => exact sanAux_noquote_append _ _ (by decide)
  | bool b => cases b <;> exact sanAux_noquote_append _ _ (by decide)
  | num lex =>
    refine sanAux_noquote_append _ _ (numLex_all_noquote lex ?_)
    simp only [jsonWf, Bool.and_eq_true] at h
    exact h.2
  | str s =>
    simp only [renderJ, List.cons_append, List.append_assoc, List.singleton_append,
      List.nil_append]
    rw [sanAux_quote_outside, sanAux_renderStrBody]
  | arr items =>
    simp only [jsonWf] at h
    simp only [renderJ, List.cons_append, List.append_assoc, List.singleton_append,
      List.nil_append]
    rw [sanAux_outside '[' (by decide), sanAux_renderElems items h (']' :: t),
      sanAux_outside ']' (by decide)]
  | obj fs =>
    simp only [jsonWf] at h
    simp only [renderJ, List.cons_append, List.append_assoc, List.singleton_append,
      List.nil_append]
    rw [sanAux_outside lbrace (by decide), sanAux_renderFieldsJ fs h (rbrace :: t),
      sanAux_outside rbrace (by decide)]

theorem sanAux_renderElems (l : List Json) (h : jsonWfList l = true)
    (t : List Char) :
    sanitizeAux (renderElems false l ++ t) false
      = renderElems true l ++ sanitizeAux t false := by
  cases l with
  | nil => simp [renderElems]
  | cons v rest =>
    cases rest with
    | nil =>
      simp only [jsonWfList, Bool.and_eq_true] at h
      simp only [renderElems]
      exact sanAux_renderJ v h.1 t
    | cons w rest2 =>
      simp only [jsonWfList, Bool.and_eq_true] at h
      simp only [renderElems, List.cons_append, List.append_assoc, List.nil_append]
      rw [sanAux_renderJ v h.1, sanAux_outside ',' (by decide),
        sanAux_renderElems (w :: rest2) (by
          simp only [jsonWfList, Bool.and_eq_true]
          exact h.2) t]

theorem sanAux_renderFieldsJ (fs : List (List Char × Json))
    (h : jsonWfFields fs = true) (t : List Char) :
    sanitizeAux (renderFieldsJ false fs ++ t) false
      = renderFieldsJ true fs ++ sanitizeAux t false := by
  cases fs with
  | nil => simp [renderFieldsJ]
  | cons kv rest =>
    obtain ⟨k, v⟩ := kv
    cases rest with
    | nil =>
      simp only [jsonWfFields, Bool.and_eq_true] at h
      simp only [renderFieldsJ, List.cons_append, List.append_assoc, List.nil_append]
      rw [sanAux_quote_outside, sanAux_renderStrBody,
        sanAux_outside ':' (by decide), sanAux_renderJ v h.1 t]
    | cons kv2 rest2 =>
      simp only [jsonWfFields, Bool.and_eq_true] at h
      simp only [renderFieldsJ, List.cons_append, List.append_assoc, List.nil_append]
      rw [sanAux_quote_outside, sanAux_renderStrBody,
        sanAux_outside ':' (by decide), sanAux_renderJ v h.1,
        sanAux_outside ',' (by decide),
        sanAux_renderFieldsJ (kv2 :: rest2) (by
          simp only [jsonWfFields, Bool.and_eq_true]
          exact h.2) t]

end

theorem firstIndexOf_append (pre rest : List Char) (ch : Char)
    (h : pre.all (fun c => !(c == ch)) = true) :
    firstIndexOf (pre ++ (ch :: rest)) ch = some pre.length := by
  induction pre with
  | nil => simp [firstIndexOf]
  | cons c t ih =>
    simp only [List.all_cons, Bool.and_eq_true] at h
    have hc : ¬ c = ch := by
      intro hq
      rw [hq] at h
      exact absurd h.1 (by simp)
    simp [firstIndexOf, hc, ih h.2]

theorem lastIndexOf_append (front post : List Char) (ch : Char)
    (h : post.all (fun c => !(c == ch)) = true) :
    lastIndexOf (front ++ (ch :: post)) ch = some front.length := by
  unfold lastIndexOf
  have hr : (front ++ (ch :: post)).reverse
      = post.reverse ++ (ch :: front.reverse) := by
    simp
  rw [hr, firstIndexOf_append post.reverse front.reverse ch
    (by rw [List.all_reverse]; exact h)]
  simp only [Option.map_some', List.length_reverse, List.length_append,
    List.length_cons]
  congr 1
  omega

/-- The bracket extraction of the close handler recovers exactly an embedded
`[...]` block when the text before it has no `[` and the text after it has
no `]`. -/
theorem extractArray_embedded (pre mid post : List Char)
    (hpre : pre.all (fun c => !(c == '[')) = true)
    (hpost : post.all (fun c => !(c == ']')) = true) :
    extractArray (pre ++ (('[' :: (mid ++ [']'])) ++ post))
      = some ('[' :: (mid ++ [']'])) := by
  have h1 : firstIndexOf (pre ++ (('[' :: (mid ++ [']'])) ++ post)) '['
      = some pre.length := by
    have : pre ++ (('[' :: (mid ++ [']'])) ++ post)
        = pre ++ ('[' :: ((mid ++ [']']) ++ post)) := by simp
    rw [this]
    exact firstIndexOf_append pre _ '[' hpre
  have h2 : lastIndexOf (pre ++ (('[' :: (mid ++ [']'])) ++ post)) ']'
      = some (pre.length + (mid.length + 1)) := by
    have : pre ++ (('[' :: (mid ++ [']'])) ++ post)
        = (pre ++ ('[' :: mid)) ++ (']' :: post) := by simp
    rw [this, lastIndexOf_append (pre ++ ('[' :: mid)) post ']' hpost]
    simp [Nat.add_comm]
  unfold extractArray
  rw [h1, h2]
  dsimp only
  have hsplit : pre ++ (('[' :: (mid ++ [']'])) ++ post)
      = (pre ++ ('[' :: (mid ++ [']']))) ++ post := by simp
  have hlen : (pre ++ ('[' :: (mid ++ [']']))).length
      = pre.length + (mid.length + 1) + 1 := by
    simp
    omega
  rw [hsplit, List.take_left' hlen, List.drop_left pre ('[' :: (mid ++ [']']))]

/-- C4: for a raw output embedding (between text with no `[` before and no
`]` after) the raw rendering of a JSON array that is valid except for
literal control characters inside its string values, the close handler's
extraction recovers exactly that rendering, sanitizing it yields exactly
the manually-escaped equivalent (each such control character replaced by
its correct JSON escape), and therefore handing the sanitized text to any
JSON parser produces the same structural value as parsing the
manually-escaped equivalent. -/
theorem c4_sanitize_then_parse_equivalent (parse : List Char → Option Json)
    (pre post : List Char) (items : List Json)
    (hw : jsonWfList items = true)
    (hpre : pre.all (fun c => !(c == '[')) = true)
    (hpost : post.all (fun c => !(c == ']')) = true) :
    extractArray (pre ++ (renderJ false (.arr items) ++ post))
        = some (renderJ false (.arr items))
    ∧ sanitizeJson (renderJ false (.arr items)) = renderJ true (.arr items)
    ∧ parse (sanitizeJson (renderJ false (.arr items)))
        = parse (renderJ true (.arr items)) := by
  have hsan : sanitizeJson (renderJ false (.arr items))
      = renderJ true (.arr items) := by
    have h := sanAux_renderJ (.arr items) (by simpa [jsonWf] using hw) []
    simpa [sanitizeJson, sanAux_nil] using h
  refine ⟨?_, hsan, by rw [hsan]⟩
  have hshape : renderJ false (.arr items)
      = '[' :: (renderElems false items ++ [']']) := by
    simp [renderJ]
  rw [hshape]
  exact extractArray_embedded pre (renderElems false items) post hpre hpost

/-- Witness for C4: the array `["a\nb"]` rendered with a raw newline,
embedded in progress text, under the modelled `JSON.parse`. -/
theorem c4_witness :
    extractArray ("log ".toList
        ++ (renderJ false (.arr [.str ['a', '\n', 'b']]) ++ " done".toList))
      = some (renderJ false (.arr [.str ['a', '\n', 'b']]))
    ∧ sanitizeJson (renderJ false (.arr [.str ['a', '\n', 'b']]))
        = renderJ true (.arr [.str ['a', '\n', 'b']])
    ∧ jsonParse (sanitizeJson (renderJ false (.arr [.str ['a', '\n', 'b']])))
        = jsonParse (renderJ true (.arr [.str ['a', '\n', 'b']])) :=
  c4_sanitize_then_parse_equivalent jsonParse "log ".toList " done".toList
    [.str ['a', '\n', 'b']] rfl (by decide) (by decide)

end QmdSearch
